import Mathlib

/-!
Verification of the encrypted session/message store of the nazarriya-api
server: the encryption codec (server/utils/encryption.py), the session store
(server/session_manager.py) and the chat pipeline (server/routers/chat.py)
are shallowly embedded below, and the spec's claims about them are settled
as theorems.

Modelling conventions:
* Python `bytes` values are `List Nat` together with the side condition
  `IsBytes` (every element < 256), mirroring the byte range guaranteed by
  the Python type.
* The external AES-GCM primitive (the `cryptography` library) is modelled
  as an ideal AEAD with the same layout as real GCM: the ciphertext is the
  plaintext body followed by a 16-byte authentication tag that binds the
  key, the nonce and the body.  The tag is a perfect MAC in the model.
* SHA-256 (the `hashlib` library) is modelled as an injective digest
  function into `Nat`; collision resistance is idealised as injectivity.
  The digest value is never `0`; `0` plays the role of the falsy empty
  string in truthiness checks.
* base64 and UTF-8 are implemented concretely and proved to roundtrip.
-/

/-- Byte strings are lists of naturals; real bytes satisfy `IsBytes`. -/
abbrev Bytes := List Nat

/-- Every element of the list is a byte value (< 256). -/
def IsBytes (b : Bytes) : Prop := ∀ a ∈ b, a < 256

instance (b : Bytes) : Decidable (IsBytes b) :=
  List.decidableBAll _ b

/-- Injective base-257 encoding of a byte string into a natural number
(digits are `a + 1` for each byte `a`, so distinct byte strings of any
lengths encode differently). -/
def encBytes : Bytes → Nat
  | [] => 0
  | a :: rest => a + 1 + 257 * encBytes rest

theorem encBytes_inj : ∀ {b c : Bytes}, IsBytes b → IsBytes c →
    encBytes b = encBytes c → b = c
  | [], [], _, _, _ => rfl
  | [], a :: c, _, hc, h => by
    exfalso
    simp only [encBytes] at h
    omega
  | a :: b, [], hb, _, h => by
    exfalso
    simp only [encBytes] at h
    omega
  | a :: b, a2 :: c, hb, hc, h => by
    have ha : a < 256 := hb a (by simp)
    have ha2 : a2 < 256 := hc a2 (by simp)
    simp only [encBytes] at h
    have hae : a = a2 ∧ encBytes b = encBytes c := by omega
    have htl : b = c :=
      encBytes_inj (fun x hx => hb x (by simp [hx])) (fun x hx => hc x (by simp [hx])) hae.2
    rw [hae.1, htl]

/-- Value of a byte string read as a little-endian base-256 number. -/
def bytesToNat : Bytes → Nat
  | [] => 0
  | a :: rest => a + 256 * bytesToNat rest

/-- Fixed-width little-endian base-256 digits of a natural number. -/
def natBytesFixed : Nat → Nat → Bytes
  | 0, _ => []
  | k + 1, n => n % 256 :: natBytesFixed k (n / 256)

theorem natBytesFixed_length : ∀ (k n : Nat), (natBytesFixed k n).length = k
  | 0, _ => rfl
  | k + 1, n => by
    simp only [natBytesFixed, List.length_cons, natBytesFixed_length k]

theorem natBytesFixed_isBytes : ∀ (k n : Nat), IsBytes (natBytesFixed k n)
  | 0, _ => by intro a ha; simp [natBytesFixed] at ha
  | k + 1, n => by
    intro a ha
    simp only [natBytesFixed, List.mem_cons] at ha
    rcases ha with h | h
    · omega
    · exact natBytesFixed_isBytes k (n / 256) a h

theorem mod_mul_decomp (n b c : Nat) : n % (b * c) = n % b + b * (n / b % c) := by
  have h1 := Nat.mod_mul_right_div_self n b c
  have h2 : n % (b * c) % b = n % b := Nat.mod_mod_of_dvd n ⟨c, rfl⟩
  calc n % (b * c) = b * (n % (b * c) / b) + n % (b * c) % b :=
        (Nat.div_add_mod _ _).symm
    _ = b * (n / b % c) + n % b := by rw [h1, h2]
    _ = n % b + b * (n / b % c) := Nat.add_comm _ _

theorem bytesToNat_natBytesFixed : ∀ (k n : Nat),
    bytesToNat (natBytesFixed k n) = n % 256 ^ k
  | 0, n => by simp [natBytesFixed, bytesToNat, Nat.mod_one]
  | k + 1, n => by
    simp only [natBytesFixed, bytesToNat, bytesToNat_natBytesFixed k]
    rw [pow_succ, Nat.mul_comm (256 ^ k) 256, mod_mul_decomp]

theorem natBytesFixed_inj {k m n : Nat} (hm : m < 256 ^ k) (hn : n < 256 ^ k)
    (h : natBytesFixed k m = natBytesFixed k n) : m = n := by
  have h2 := congrArg bytesToNat h
  rw [bytesToNat_natBytesFixed, bytesToNat_natBytesFixed] at h2
  rwa [Nat.mod_eq_of_lt hm, Nat.mod_eq_of_lt hn] at h2

/-!
Base64 transport encoding (Python `base64.b64encode` / `base64.b64decode`):
three bytes become four alphabet characters, with `=` padding for a final
group of one or two bytes.  `b64Decode` fails on strings whose length is not
a multiple of four or that contain characters outside the alphabet.
-/

def b64Alphabet : List Char :=
  "ABCDEFGHIJKLMNOPQRSTUVWXYZabcdefghijklmnopqrstuvwxyz0123456789+/".toList

def b64Char (n : Nat) : Char := b64Alphabet.getD n 'A'

def b64Val (c : Char) : Option Nat := b64Alphabet.findIdx? (fun d => d == c)

theorem b64Val_b64Char (n : Nat) (h : n < 64) : b64Val (b64Char n) = some n := by
  have hall : ∀ m : Fin 64, b64Val (b64Char m.val) = some m.val := by decide
  exact hall ⟨n, h⟩

theorem b64Char_ne_pad (n : Nat) (h : n < 64) : b64Char n ≠ '=' := by
  have hall : ∀ m : Fin 64, b64Char m.val ≠ '=' := by decide
  exact hall ⟨n, h⟩

def b64EncodeCore : Bytes → List Char
  | [] => []
  | [a] => [b64Char (a / 4), b64Char (a % 4 * 16), '=', '=']
  | [a, b] => [b64Char (a / 4), b64Char (a % 4 * 16 + b / 16), b64Char (b % 16 * 4), '=']
  | a :: b :: c :: rest =>
    b64Char (a / 4) :: b64Char (a % 4 * 16 + b / 16) ::
      b64Char (b % 16 * 4 + c / 64) :: b64Char (c % 64) :: b64EncodeCore rest

def b64Encode (b : Bytes) : String := String.mk (b64EncodeCore b)

def b64DecodeCore : List Char → Option Bytes
  | [] => some []
  | c1 :: c2 :: c3 :: c4 :: rest =>
    if c3 = '=' then
      if c4 = '=' ∧ rest = [] then
        match b64Val c1, b64Val c2 with
        | some v1, some v2 => some [v1 * 4 + v2 / 16]
        | _, _ => none
      else none
    else if c4 = '=' then
      if rest = [] then
        match b64Val c1, b64Val c2, b64Val c3 with
        | some v1, some v2, some v3 => some [v1 * 4 + v2 / 16, v2 % 16 * 16 + v3 / 4]
        | _, _, _ => none
      else none
    else
      match b64Val c1, b64Val c2, b64Val c3, b64Val c4, b64DecodeCore rest with
      | some v1, some v2, some v3, some v4, some tail =>
        some ((v1 * 4 + v2 / 16) :: (v2 % 16 * 16 + v3 / 4) :: (v3 % 4 * 64 + v4) :: tail)
      | _, _, _, _, _ => none
  | _ => none

def b64Decode (s : String) : Option Bytes := b64DecodeCore s.toList

theorem b64DecodeCore_encodeCore : ∀ (b : Bytes), IsBytes b →
    b64DecodeCore (b64EncodeCore b) = some b
  | [], _ => by simp [b64EncodeCore, b64DecodeCore]
  | [a], h => by
    have ha : a < 256 := h a (by simp)
    simp only [b64EncodeCore, b64DecodeCore]
    rw [b64Val_b64Char (a / 4) (by omega), b64Val_b64Char (a % 4 * 16) (by omega)]
    have e1 : a / 4 * 4 + a % 4 * 16 / 16 = a := by omega
    show some [a / 4 * 4 + a % 4 * 16 / 16] = some [a]
    rw [e1]
  | [a, b], h => by
    have ha : a < 256 := h a (by simp)
    have hb : b < 256 := h b (by simp)
    have h3 : b64Char (b % 16 * 4) ≠ '=' := b64Char_ne_pad _ (by omega)
    simp only [b64EncodeCore, b64DecodeCore]
    rw [if_neg h3]
    rw [b64Val_b64Char (a / 4) (by omega), b64Val_b64Char (a % 4 * 16 + b / 16) (by omega),
      b64Val_b64Char (b % 16 * 4) (by omega)]
    have e1 : a / 4 * 4 + (a % 4 * 16 + b / 16) / 16 = a := by omega
    have e2 : (a % 4 * 16 + b / 16) % 16 * 16 + b % 16 * 4 / 4 = b := by omega
    show some [a / 4 * 4 + (a % 4 * 16 + b / 16) / 16,
      (a % 4 * 16 + b / 16) % 16 * 16 + b % 16 * 4 / 4] = some [a, b]
    rw [e1, e2]
  | a :: b :: c :: rest, h => by
    have ha : a < 256 := h a (by simp)
    have hb : b < 256 := h b (by simp)
    have hc : c < 256 := h c (by simp)
    have ih := b64DecodeCore_encodeCore rest (fun x hx => h x (by simp [hx]))
    have h3 : b64Char (b % 16 * 4 + c / 64) ≠ '=' := b64Char_ne_pad _ (by omega)
    have h4 : b64Char (c % 64) ≠ '=' := b64Char_ne_pad _ (by omega)
    simp only [b64EncodeCore, b64DecodeCore]
    rw [if_neg h3, if_neg h4]
    rw [b64Val_b64Char (a / 4) (by omega), b64Val_b64Char (a % 4 * 16 + b / 16) (by omega),
      b64Val_b64Char (b % 16 * 4 + c / 64) (by omega), b64Val_b64Char (c % 64) (by omega), ih]
    have e1 : a / 4 * 4 + (a % 4 * 16 + b / 16) / 16 = a := by omega
    have e2 : (a % 4 * 16 + b / 16) % 16 * 16 + (b % 16 * 4 + c / 64) / 4 = b := by omega
    have e3 : (b % 16 * 4 + c / 64) % 4 * 64 + c % 64 = c := by omega
    show some ((a / 4 * 4 + (a % 4 * 16 + b / 16) / 16) ::
      ((a % 4 * 16 + b / 16) % 16 * 16 + (b % 16 * 4 + c / 64) / 4) ::
      ((b % 16 * 4 + c / 64) % 4 * 64 + c % 64) :: rest) = some (a :: b :: c :: rest)
    rw [e1, e2, e3]

theorem b64Decode_b64Encode (b : Bytes) (h : IsBytes b) :
    b64Decode (b64Encode b) = some b := by
  unfold b64Decode b64Encode
  rw [show (String.mk (b64EncodeCore b)).toList = b64EncodeCore b from rfl]
  exact b64DecodeCore_encodeCore b h

theorem b64Encode_ne_empty (b : Bytes) (h : b ≠ []) : b64Encode b ≠ "" := by
  intro hcontra
  have h2 : b64EncodeCore b = [] := by
    have := congrArg String.toList hcontra
    simpa using this
  match b with
  | [] => exact h rfl
  | [a] => simp [b64EncodeCore] at h2
  | [a, b2] => simp [b64EncodeCore] at h2
  | a :: b2 :: c :: rest => simp [b64EncodeCore] at h2


/-!
UTF-8 encoding and decoding (Python `str.encode` / `bytes.decode` with the
`utf-8` codec).  The decoder works on code points: it validates continuation
bytes and rejects overlong forms, surrogates and out-of-range lead bytes,
exactly as a strict UTF-8 decoder does.  `utf8Decode` turns the decoded code
points back into a string.
-/

def utf8EncodeChar (c : Char) : Bytes :=
  if c.toNat < 0x80 then [c.toNat]
  else if c.toNat < 0x800 then [0xC0 + c.toNat / 64, 0x80 + c.toNat % 64]
  else if c.toNat < 0x10000 then
    [0xE0 + c.toNat / 4096, 0x80 + c.toNat / 64 % 64, 0x80 + c.toNat % 64]
  else
    [0xF0 + c.toNat / 0x40000, 0x80 + c.toNat / 4096 % 64,
      0x80 + c.toNat / 64 % 64, 0x80 + c.toNat % 64]

def utf8Encode (s : String) : Bytes :=
  s.toList.foldr (fun c acc => utf8EncodeChar c ++ acc) []

/-- Continuation byte test for UTF-8. -/
def utf8Cont (b : Nat) : Prop := 0x80 ≤ b ∧ b < 0xC0

instance (b : Nat) : Decidable (utf8Cont b) := by unfold utf8Cont; infer_instance

/-- Validity of the first continuation byte after a three-byte lead
(rejects overlong forms and surrogates). -/
def utf8Lead3Ok (a b : Nat) : Prop :=
  utf8Cont b ∧ (a = 0xE0 → 0xA0 ≤ b) ∧ (a = 0xED → b < 0xA0)

instance (a b : Nat) : Decidable (utf8Lead3Ok a b) := by unfold utf8Lead3Ok; infer_instance

/-- Validity of the first continuation byte after a four-byte lead
(rejects overlong forms and code points above U+10FFFF). -/
def utf8Lead4Ok (a b : Nat) : Prop :=
  utf8Cont b ∧ (a = 0xF0 → 0x90 ≤ b) ∧ (a = 0xF4 → b < 0x90)

instance (a b : Nat) : Decidable (utf8Lead4Ok a b) := by unfold utf8Lead4Ok; infer_instance

def cp2 (a b : Nat) : Nat := (a - 0xC0) * 64 + (b - 0x80)

def cp3 (a b c : Nat) : Nat := (a - 0xE0) * 4096 + (b - 0x80) * 64 + (c - 0x80)

def cp4 (a b c d : Nat) : Nat :=
  (a - 0xF0) * 0x40000 + (b - 0x80) * 4096 + (c - 0x80) * 64 + (d - 0x80)

def utf8DecodeCore : Bytes → Option (List Nat)
  | [] => some []
  | [a] => if a < 0x80 then some [a] else none
  | [a, b] =>
    if a < 0x80 then (utf8DecodeCore [b]).map (fun ns => a :: ns)
    else if a < 0xC2 then none
    else if a < 0xE0 then (if utf8Cont b then some [cp2 a b] else none)
    else none
  | [a, b, c] =>
    if a < 0x80 then (utf8DecodeCore [b, c]).map (fun ns => a :: ns)
    else if a < 0xC2 then none
    else if a < 0xE0 then
      (if utf8Cont b then (utf8DecodeCore [c]).map (fun ns => cp2 a b :: ns) else none)
    else if a < 0xF0 then (if utf8Lead3Ok a b ∧ utf8Cont c then some [cp3 a b c] else none)
    else none
  | a :: b :: c :: d :: rest =>
    if a < 0x80 then (utf8DecodeCore (b :: c :: d :: rest)).map (fun ns => a :: ns)
    else if a < 0xC2 then none
    else if a < 0xE0 then
      (if utf8Cont b then (utf8DecodeCore (c :: d :: rest)).map (fun ns => cp2 a b :: ns)
       else none)
    else if a < 0xF0 then
      (if utf8Lead3Ok a b ∧ utf8Cont c then
        (utf8DecodeCore (d :: rest)).map (fun ns => cp3 a b c :: ns)
       else none)
    else if a < 0xF5 then
      (if utf8Lead4Ok a b ∧ utf8Cont c ∧ utf8Cont d then
        (utf8DecodeCore rest).map (fun ns => cp4 a b c d :: ns)
       else none)
    else none

def utf8Decode (b : Bytes) : Option String :=
  (utf8DecodeCore b).map (fun ns => String.mk (ns.map Char.ofNat))

theorem char_valid_range (c : Char) :
    c.toNat < 0xd800 ∨ (0xe000 ≤ c.toNat ∧ c.toNat < 0x110000) := by
  rcases c.valid with h | h
  · left; exact h
  · right; exact h

theorem utf8EncodeChar_isBytes (c : Char) : IsBytes (utf8EncodeChar c) := by
  have hv := char_valid_range c
  unfold utf8EncodeChar
  split
  · intro x hx; simp at hx; omega
  · split
    · intro x hx; simp at hx; rcases hx with h | h <;> omega
    · split
      · intro x hx; simp at hx; rcases hx with h | h | h <;> omega
      · intro x hx; simp at hx; rcases hx with h | h | h | h <;> omega

theorem utf8Encode_isBytes (s : String) : IsBytes (utf8Encode s) := by
  unfold utf8Encode
  induction s.toList with
  | nil => intro x hx; simp at hx
  | cons c cs ih =>
    intro x hx
    simp only [List.foldr_cons, List.mem_append] at hx
    rcases hx with h | h
    · exact utf8EncodeChar_isBytes c x h
    · exact ih x h

theorem utf8DecodeCore_ascii (a : Nat) (rest : Bytes) (h : a < 0x80) :
    utf8DecodeCore (a :: rest) = (utf8DecodeCore rest).map (fun ns => a :: ns) := by
  match rest with
  | [] =>
    rw [utf8DecodeCore.eq_def]
    dsimp only []
    rw [if_pos h]
    rfl
  | [b] =>
    rw [utf8DecodeCore.eq_def]
    dsimp only []
    rw [if_pos h]
  | [b, c] =>
    rw [utf8DecodeCore.eq_def]
    dsimp only []
    rw [if_pos h]
  | b :: c :: d :: t =>
    rw [utf8DecodeCore.eq_def]
    dsimp only []
    rw [if_pos h]

theorem utf8DecodeCore_two (a b : Nat) (rest : Bytes) (h1 : 0xC2 ≤ a) (h2 : a < 0xE0)
    (hb : utf8Cont b) :
    utf8DecodeCore (a :: b :: rest) = (utf8DecodeCore rest).map (fun ns => cp2 a b :: ns) := by
  match rest with
  | [] =>
    rw [utf8DecodeCore.eq_def]
    dsimp only []
    rw [if_neg (by omega), if_neg (by omega), if_pos h2, if_pos hb]
    rfl
  | [c] =>
    rw [utf8DecodeCore.eq_def]
    dsimp only []
    rw [if_neg (by omega), if_neg (by omega), if_pos h2, if_pos hb]
  | c :: d :: t =>
    rw [utf8DecodeCore.eq_def]
    dsimp only []
    rw [if_neg (by omega), if_neg (by omega), if_pos h2, if_pos hb]

theorem utf8DecodeCore_three (a b c : Nat) (rest : Bytes) (h1 : 0xE0 ≤ a) (h2 : a < 0xF0)
    (hb : utf8Lead3Ok a b) (hc : utf8Cont c) :
    utf8DecodeCore (a :: b :: c :: rest) =
      (utf8DecodeCore rest).map (fun ns => cp3 a b c :: ns) := by
  match rest with
  | [] =>
    rw [utf8DecodeCore.eq_def]
    dsimp only []
    rw [if_neg (by omega), if_neg (by omega), if_neg (by omega), if_pos h2,
      if_pos (by exact ⟨hb, hc⟩)]
    rfl
  | d :: t =>
    rw [utf8DecodeCore.eq_def]
    dsimp only []
    rw [if_neg (by omega), if_neg (by omega), if_neg (by omega), if_pos h2,
      if_pos (by exact ⟨hb, hc⟩)]

theorem utf8DecodeCore_four (a b c d : Nat) (rest : Bytes) (h1 : 0xF0 ≤ a) (h2 : a < 0xF5)
    (hb : utf8Lead4Ok a b) (hc : utf8Cont c) (hd : utf8Cont d) :
    utf8DecodeCore (a :: b :: c :: d :: rest) =
      (utf8DecodeCore rest).map (fun ns => cp4 a b c d :: ns) := by
  rw [utf8DecodeCore.eq_def]
  dsimp only []
  rw [if_neg (by omega), if_neg (by omega), if_neg (by omega), if_neg (by omega), if_pos h2,
    if_pos (by exact ⟨hb, hc, hd⟩)]

theorem utf8DecodeCore_encodeChar (c : Char) (rest : Bytes) :
    utf8DecodeCore (utf8EncodeChar c ++ rest) =
      (utf8DecodeCore rest).map (fun ns => c.toNat :: ns) := by
  have hv := char_valid_range c
  rcases Nat.lt_or_ge c.toNat 0x80 with h1 | h1
  · rw [show utf8EncodeChar c = [c.toNat] from by unfold utf8EncodeChar; rw [if_pos h1]]
    rw [List.cons_append, List.nil_append]
    exact utf8DecodeCore_ascii c.toNat rest h1
  · rcases Nat.lt_or_ge c.toNat 0x800 with h2 | h2
    · rw [show utf8EncodeChar c = [0xC0 + c.toNat / 64, 0x80 + c.toNat % 64] from by
        unfold utf8EncodeChar; rw [if_neg (by omega), if_pos h2]]
      rw [List.cons_append, List.cons_append, List.nil_append]
      rw [utf8DecodeCore_two _ _ rest (by omega) (by omega)
        (by unfold utf8Cont; omega)]
      have e : cp2 (0xC0 + c.toNat / 64) (0x80 + c.toNat % 64) = c.toNat := by
        unfold cp2; omega
      rw [e]
    · rcases Nat.lt_or_ge c.toNat 0x10000 with h3 | h3
      · rw [show utf8EncodeChar c =
            [0xE0 + c.toNat / 4096, 0x80 + c.toNat / 64 % 64, 0x80 + c.toNat % 64] from by
          unfold utf8EncodeChar; rw [if_neg (by omega), if_neg (by omega), if_pos h3]]
        rw [List.cons_append, List.cons_append, List.cons_append, List.nil_append]
        rw [utf8DecodeCore_three _ _ _ rest (by omega) (by omega)
          (by unfold utf8Lead3Ok utf8Cont
              refine ⟨by omega, ?_, ?_⟩
              · intro he; omega
              · intro he; omega)
          (by unfold utf8Cont; omega)]
        have e : cp3 (0xE0 + c.toNat / 4096) (0x80 + c.toNat / 64 % 64)
            (0x80 + c.toNat % 64) = c.toNat := by
          unfold cp3; omega
        rw [e]
      · rw [show utf8EncodeChar c =
            [0xF0 + c.toNat / 0x40000, 0x80 + c.toNat / 4096 % 64,
              0x80 + c.toNat / 64 % 64, 0x80 + c.toNat % 64] from by
          unfold utf8EncodeChar; rw [if_neg (by omega), if_neg (by omega), if_neg (by omega)]]
        rw [List.cons_append, List.cons_append, List.cons_append, List.cons_append,
          List.nil_append]
        rw [utf8DecodeCore_four _ _ _ _ rest (by omega) (by omega)
          (by unfold utf8Lead4Ok utf8Cont
              refine ⟨by omega, ?_, ?_⟩
              · intro he; omega
              · intro he; omega)
          (by unfold utf8Cont; omega) (by unfold utf8Cont; omega)]
        have e : cp4 (0xF0 + c.toNat / 0x40000) (0x80 + c.toNat / 4096 % 64)
            (0x80 + c.toNat / 64 % 64) (0x80 + c.toNat % 64) = c.toNat := by
          unfold cp4; omega
        rw [e]

theorem utf8DecodeCore_encode_list : ∀ (cs : List Char),
    utf8DecodeCore (cs.foldr (fun c acc => utf8EncodeChar c ++ acc) []) =
      some (cs.map Char.toNat)
  | [] => rfl
  | c :: cs => by
    simp only [List.foldr_cons]
    rw [utf8DecodeCore_encodeChar, utf8DecodeCore_encode_list cs]
    rfl

theorem utf8Decode_utf8Encode (s : String) : utf8Decode (utf8Encode s) = some s := by
  unfold utf8Decode utf8Encode
  rw [utf8DecodeCore_encode_list s.toList]
  show some (String.mk ((s.toList.map Char.toNat).map Char.ofNat)) = some s
  rw [List.map_map]
  have hmap : s.toList.map (Char.ofNat ∘ Char.toNat) = s.toList := by
    have : (Char.ofNat ∘ Char.toNat) = id := by
      funext c
      exact Char.ofNat_toNat c
    rw [this, List.map_id]
  rw [hmap]
  rfl

theorem utf8Encode_inj {s t : String} (h : utf8Encode s = utf8Encode t) : s = t := by
  have hs := utf8Decode_utf8Encode s
  have ht := utf8Decode_utf8Encode t
  rw [h, ht] at hs
  exact (Option.some_inj.mp hs).symm

/-!
Ideal model of the external AES-GCM primitive
(`cryptography.hazmat.primitives.ciphers.aead.AESGCM`).  The repository
treats the primitive as an opaque AEAD; the model reproduces its interface
and layout: the ciphertext is the plaintext body followed by a 16-byte
authentication tag, decryption rejects inputs shorter than the tag and
inputs whose tag does not match, and the tag binds the key, the nonce and
the body.  The tag is a perfect MAC in the model: its value is a base-257
accumulation of the body shifted by a key/nonce pairing, reduced mod
`2 ^ 128`; because 257 is odd, changing any single byte of the body changes
the tag, which is the single-bit-tamper-detection property the real GCM tag
provides.
-/

def gcmTagVal (key iv body : Bytes) : Nat :=
  (encBytes body + Nat.pair (encBytes key) (encBytes iv)) % 2 ^ 128

def gcmTag (key iv body : Bytes) : Bytes := natBytesFixed 16 (gcmTagVal key iv body)

def aesgcm_encrypt (key iv pt : Bytes) : Bytes := pt ++ gcmTag key iv pt

def aesgcm_decrypt (key iv ct : Bytes) : Option Bytes :=
  if ct.length < 16 then none
  else
    if ct.drop (ct.length - 16) = gcmTag key iv (ct.take (ct.length - 16)) then
      some (ct.take (ct.length - 16))
    else none

theorem gcmTag_length (key iv body : Bytes) : (gcmTag key iv body).length = 16 :=
  natBytesFixed_length 16 _

theorem gcmTag_isBytes (key iv body : Bytes) : IsBytes (gcmTag key iv body) :=
  natBytesFixed_isBytes 16 _

theorem aesgcm_encrypt_length (key iv pt : Bytes) :
    (aesgcm_encrypt key iv pt).length = pt.length + 16 := by
  unfold aesgcm_encrypt
  rw [List.length_append, gcmTag_length]

theorem aesgcm_encrypt_isBytes (key iv pt : Bytes) (hpt : IsBytes pt) :
    IsBytes (aesgcm_encrypt key iv pt) := by
  intro x hx
  unfold aesgcm_encrypt at hx
  rcases List.mem_append.mp hx with h | h
  · exact hpt x h
  · exact gcmTag_isBytes key iv pt x h

theorem aesgcm_decrypt_encrypt (key iv pt : Bytes) :
    aesgcm_decrypt key iv (aesgcm_encrypt key iv pt) = some pt := by
  unfold aesgcm_decrypt
  rw [aesgcm_encrypt_length]
  rw [if_neg (by omega)]
  have hlen : pt.length + 16 - 16 = pt.length := by omega
  rw [hlen]
  unfold aesgcm_encrypt
  rw [List.take_left, List.drop_left]
  rw [if_pos rfl]

/-- Change one bit of one byte of a byte string: the element at position
`i` is replaced by its xor with `2 ^ bit`. -/
def flipBitAt : Bytes → Nat → Nat → Bytes
  | [], _, _ => []
  | a :: rest, 0, bit => (a ^^^ 2 ^ bit) :: rest
  | a :: rest, i + 1, bit => a :: flipBitAt rest i bit

theorem flipBitAt_length : ∀ (l : Bytes) (i bit : Nat),
    (flipBitAt l i bit).length = l.length
  | [], _, _ => rfl
  | a :: rest, 0, bit => rfl
  | a :: rest, i + 1, bit => by
    simp only [flipBitAt, List.length_cons, flipBitAt_length rest i bit]

theorem flipBitAt_append_left : ∀ (l r : Bytes) (i bit : Nat), i < l.length →
    flipBitAt (l ++ r) i bit = flipBitAt l i bit ++ r
  | [], _, i, _, h => by simp at h
  | a :: rest, r, 0, bit, _ => rfl
  | a :: rest, r, i + 1, bit, h => by
    show a :: flipBitAt (rest ++ r) i bit = a :: (flipBitAt rest i bit ++ r)
    rw [flipBitAt_append_left rest r i bit (by simpa using h)]

theorem flipBitAt_append_right : ∀ (l r : Bytes) (j bit : Nat),
    flipBitAt (l ++ r) (l.length + j) bit = l ++ flipBitAt r j bit
  | [], r, j, bit => by simp
  | a :: rest, r, j, bit => by
    simp only [List.cons_append, List.length_cons, flipBitAt]
    rw [show rest.length + 1 + j = rest.length + j + 1 from by omega]
    simp only [flipBitAt]
    rw [flipBitAt_append_right rest r j bit]

theorem xor_pow_ne (a bit : Nat) : a ^^^ 2 ^ bit ≠ a := by
  intro h
  have h2 : a ^^^ (a ^^^ 2 ^ bit) = a ^^^ a := congrArg (fun x => a ^^^ x) h
  rw [Nat.xor_cancel_left, Nat.xor_self] at h2
  exact absurd h2 (Nat.pos_iff_ne_zero.mp (Nat.pos_pow_of_pos bit (by omega)))

theorem flipBitAt_ne : ∀ (l : Bytes) (i bit : Nat), i < l.length →
    flipBitAt l i bit ≠ l
  | [], i, _, h => by simp at h
  | a :: rest, 0, bit, _ => by
    simp only [flipBitAt, ne_eq, List.cons.injEq, not_and]
    intro ha
    exact absurd ha (xor_pow_ne a bit)
  | a :: rest, i + 1, bit, h => by
    simp only [flipBitAt, ne_eq, List.cons.injEq, not_and]
    intro _
    exact flipBitAt_ne rest i bit (by simpa using h)

theorem flipBitAt_isBytes (l : Bytes) (i bit : Nat) (hl : IsBytes l) (hbit : bit < 8) :
    IsBytes (flipBitAt l i bit) := by
  induction l generalizing i with
  | nil => intro x hx; simp [flipBitAt] at hx
  | cons a rest ih =>
    match i with
    | 0 =>
      intro x hx
      simp only [flipBitAt, List.mem_cons] at hx
      rcases hx with h | h
      · have ha : a < 2 ^ 8 := by have := hl a (by simp); omega
        have hp : 2 ^ bit < 2 ^ 8 := Nat.pow_lt_pow_right (by omega) hbit
        have := Nat.xor_lt_two_pow ha hp
        omega
      · exact hl x (by simp [h])
    | i + 1 =>
      intro x hx
      simp only [flipBitAt, List.mem_cons] at hx
      rcases hx with h | h
      · exact hl x (by simp [h])
      · exact ih i (fun y hy => hl y (List.mem_cons_of_mem a hy)) x h

theorem encBytes_flipBitAt : ∀ (l : Bytes) (i bit : Nat), i < l.length →
    encBytes (flipBitAt l i bit) + 257 ^ i * l.getD i 0 =
      encBytes l + 257 ^ i * (l.getD i 0 ^^^ 2 ^ bit)
  | [], i, _, h => by simp at h
  | a :: rest, 0, bit, _ => by
    simp only [flipBitAt, encBytes, List.getD_cons_zero, pow_zero, Nat.one_mul]
    omega
  | a :: rest, i + 1, bit, h => by
    have ih := encBytes_flipBitAt rest i bit (by simpa using h)
    simp only [flipBitAt, encBytes, List.getD_cons_succ]
    zify at ih ⊢
    linear_combination (257 : ℤ) * ih

theorem gcmTagVal_byte_change {x y E E2 C : Nat} (i : Nat) (hx : x < 256) (hy : y < 256)
    (hne : x ≠ y) (hrel : E2 + 257 ^ i * x = E + 257 ^ i * y)
    (hmod : (E2 + C) % 2 ^ 128 = (E + C) % 2 ^ 128) : False := by
  have hm : E2 ≡ E [MOD 2 ^ 128] := by
    have h0 : E2 + C ≡ E + C [MOD 2 ^ 128] := hmod
    exact Nat.ModEq.add_right_cancel' C h0
  have hm2 : E + 257 ^ i * y ≡ E + 257 ^ i * x [MOD 2 ^ 128] := by
    calc E + 257 ^ i * y = E2 + 257 ^ i * x := hrel.symm
      _ ≡ E + 257 ^ i * x [MOD 2 ^ 128] := Nat.ModEq.add_right _ hm
  have hm3 : 257 ^ i * y ≡ 257 ^ i * x [MOD 2 ^ 128] := Nat.ModEq.add_left_cancel' E hm2
  have hcop : Nat.Coprime (2 ^ 128) (257 ^ i) := Nat.Coprime.pow 128 i (by decide)
  rcases Nat.lt_or_ge x y with hlt | hge
  · obtain ⟨d, hd⟩ : ∃ d, y = x + d := ⟨y - x, by omega⟩
    have hdpos : 0 < d := by omega
    have hdvd : 2 ^ 128 ∣ 257 ^ i * y - 257 ^ i * x :=
      (Nat.modEq_iff_dvd' (Nat.mul_le_mul_left _ (by omega))).mp hm3.symm
    have hsub : 257 ^ i * y - 257 ^ i * x = 257 ^ i * d := by
      rw [hd, Nat.mul_add]
      omega
    rw [hsub] at hdvd
    have hdd : 2 ^ 128 ∣ d := Nat.Coprime.dvd_of_dvd_mul_left hcop hdvd
    have := Nat.le_of_dvd hdpos hdd
    have hbig : 256 < 2 ^ 128 := by norm_num
    omega
  · have hlt : y < x := by omega
    obtain ⟨d, hd⟩ : ∃ d, x = y + d := ⟨x - y, by omega⟩
    have hdpos : 0 < d := by omega
    have hdvd : 2 ^ 128 ∣ 257 ^ i * x - 257 ^ i * y :=
      (Nat.modEq_iff_dvd' (Nat.mul_le_mul_left _ (by omega))).mp hm3
    have hsub : 257 ^ i * x - 257 ^ i * y = 257 ^ i * d := by
      rw [hd, Nat.mul_add]
      omega
    rw [hsub] at hdvd
    have hdd : 2 ^ 128 ∣ d := Nat.Coprime.dvd_of_dvd_mul_left hcop hdvd
    have := Nat.le_of_dvd hdpos hdd
    have hbig : 256 < 2 ^ 128 := by norm_num
    omega

theorem gcmTag_body_change (key iv pt : Bytes) (hpt : IsBytes pt) (i bit : Nat)
    (hi : i < pt.length) (hbit : bit < 8) :
    gcmTag key iv (flipBitAt pt i bit) ≠ gcmTag key iv pt := by
  intro h
  have hv1 : gcmTagVal key iv (flipBitAt pt i bit) < 256 ^ 16 := by
    have : (2 : Nat) ^ 128 = 256 ^ 16 := by norm_num
    unfold gcmTagVal
    omega
  have hv2 : gcmTagVal key iv pt < 256 ^ 16 := by
    have : (2 : Nat) ^ 128 = 256 ^ 16 := by norm_num
    unfold gcmTagVal
    omega
  have hval : gcmTagVal key iv (flipBitAt pt i bit) = gcmTagVal key iv pt :=
    natBytesFixed_inj hv1 hv2 h
  unfold gcmTagVal at hval
  have ha : pt.getD i 0 < 256 := by
    have hmem : pt.getD i 0 ∈ pt := by
      rw [List.getD_eq_getElem pt 0 hi]
      exact List.getElem_mem hi
    exact hpt _ hmem
  have hxlt : pt.getD i 0 ^^^ 2 ^ bit < 256 := by
    have hp : 2 ^ bit < 2 ^ 8 := Nat.pow_lt_pow_right (by omega) hbit
    have := Nat.xor_lt_two_pow (show pt.getD i 0 < 2 ^ 8 from by omega) hp
    omega
  exact gcmTagVal_byte_change i ha hxlt (fun hc => xor_pow_ne _ bit hc.symm)
    (encBytes_flipBitAt pt i bit hi) hval

theorem aesgcm_tamper (key iv pt : Bytes) (hpt : IsBytes pt) (i bit : Nat)
    (hi : i < (aesgcm_encrypt key iv pt).length) (hbit : i < pt.length → bit < 8) :
    aesgcm_decrypt key iv (flipBitAt (aesgcm_encrypt key iv pt) i bit) = none := by
  rw [aesgcm_encrypt_length] at hi
  rcases Nat.lt_or_ge i pt.length with hcase | hcase
  · have hbit8 := hbit hcase
    unfold aesgcm_encrypt
    rw [flipBitAt_append_left pt (gcmTag key iv pt) i bit hcase]
    unfold aesgcm_decrypt
    have hlen : (flipBitAt pt i bit ++ gcmTag key iv pt).length = pt.length + 16 := by
      rw [List.length_append, flipBitAt_length, gcmTag_length]
    rw [hlen]
    rw [if_neg (by omega)]
    have hlen2 : pt.length + 16 - 16 = pt.length := by omega
    rw [hlen2]
    have htake : (flipBitAt pt i bit ++ gcmTag key iv pt).take pt.length =
        flipBitAt pt i bit := by
      rw [show pt.length = (flipBitAt pt i bit).length from (flipBitAt_length pt i bit).symm]
      exact List.take_left _ _
    have hdrop : (flipBitAt pt i bit ++ gcmTag key iv pt).drop pt.length =
        gcmTag key iv pt := by
      rw [show pt.length = (flipBitAt pt i bit).length from (flipBitAt_length pt i bit).symm]
      exact List.drop_left _ _
    rw [htake, hdrop]
    rw [if_neg (Ne.symm (gcmTag_body_change key iv pt hpt i bit hcase hbit8))]
  · obtain ⟨j, hj⟩ : ∃ j, i = pt.length + j := ⟨i - pt.length, by omega⟩
    have hjlt : j < 16 := by omega
    unfold aesgcm_encrypt
    rw [hj, flipBitAt_append_right pt (gcmTag key iv pt) j bit]
    unfold aesgcm_decrypt
    have hlen : (pt ++ flipBitAt (gcmTag key iv pt) j bit).length = pt.length + 16 := by
      rw [List.length_append, flipBitAt_length, gcmTag_length]
    rw [hlen]
    rw [if_neg (by omega)]
    have hlen2 : pt.length + 16 - 16 = pt.length := by omega
    rw [hlen2]
    rw [List.take_left, List.drop_left]
    have hne : flipBitAt (gcmTag key iv pt) j bit ≠ gcmTag key iv pt := by
      apply flipBitAt_ne
      rw [gcmTag_length]
      exact hjlt
    rw [if_neg hne]

/-!
Embedding of `server/utils/encryption.py`.  Python metadata dicts are
modelled as a record of optional string fields; `dict.get(k)` is field
access, `dict.get(k, default)` is `Option.getD`.  The hex digest of
SHA-256 (`hashlib.sha256(x).hexdigest()`) is modelled as an injective
function into `Nat` (collision resistance is idealised as injectivity);
the digest is never the value `0`, which plays the role of the falsy empty
string in Python truthiness checks.  The random 12-byte nonce produced by
`generate_iv` (`os.urandom(12)`) is passed to `encrypt_message` as an
explicit argument.
-/

deriving instance DecidableEq for Except

structure EncMetadata where
  algorithm : Option String
  key_id : Option String
  iv : Option String
  created_at : Option String
deriving DecidableEq

/-- Hex digest of SHA-256 over a byte string, idealised as an injective
digest value. -/
def sha256_hexdigest (b : Bytes) : Nat := encBytes b + 1

theorem sha256_hexdigest_inj {b c : Bytes} (hb : IsBytes b) (hc : IsBytes c)
    (h : sha256_hexdigest b = sha256_hexdigest c) : b = c := by
  unfold sha256_hexdigest at h
  exact encBytes_inj hb hc (by omega)

theorem sha256_hexdigest_ne_zero (b : Bytes) : sha256_hexdigest b ≠ 0 := by
  unfold sha256_hexdigest
  omega

/-- Key bytes `b placeholder_key_32_bytes_long_fo` used by
`derive_key_from_metadata` for every `key_id` other than
`flutter_app_key`. -/
def placeholder_key : Bytes := utf8Encode "placeholder_key_32_bytes_long_fo"

/-- Base64 constant from which the `flutter_app_key` key is decoded. -/
def flutter_key_b64 : String := "cGxhY2Vob2xkZXJfa2V5XzMyX2J5dGVzX2xvbmdfZm8="

/-- Embedding of `derive_key_from_metadata`: resolves `flutter_app_key` to
the base64-decoded fixed key and falls back to the placeholder key for any
other `key_id`. -/
def derive_key_from_metadata (metadata : EncMetadata) : Bytes :=
  if metadata.key_id.getD "placeholder" = "flutter_app_key" then
    (b64Decode flutter_key_b64).getD []
  else placeholder_key

/-- Both branches of `derive_key_from_metadata` return the same 32 bytes:
the base64 constant decodes exactly to the placeholder key. -/
theorem derive_key_const (metadata : EncMetadata) :
    derive_key_from_metadata metadata = placeholder_key := by
  unfold derive_key_from_metadata
  split
  · decide
  · rfl

/-- Embedding of `encrypt_message`: encrypts the UTF-8 plaintext under the
derived key with the supplied fresh nonce and builds the response metadata
from the request metadata. -/
def encrypt_message (plaintext : String) (request_metadata : EncMetadata) (iv : Bytes) :
    Bytes × EncMetadata :=
  (aesgcm_encrypt (derive_key_from_metadata request_metadata) iv (utf8Encode plaintext),
    { algorithm := some "AES-256-GCM"
      key_id := some (request_metadata.key_id.getD "placeholder")
      iv := some (b64Encode iv)
      created_at := some (request_metadata.created_at.getD "unknown") })

/-- Failure modes of `decrypt_message`: the `ValueError` for a missing or
empty nonce, the base64 decode error, the AEAD `InvalidTag`, and the
`UnicodeDecodeError` when the authenticated plaintext bytes are not valid
UTF-8. -/
inductive DecryptError where
  | noIV
  | ivDecodeFailed
  | authFailed
  | utf8DecodeFailed
deriving DecidableEq

/-- Embedding of `decrypt_message`.  Python's `if not iv_b64` treats both a
missing key and an empty string as "no IV". -/
def decrypt_message (encrypted_data : Bytes) (metadata : EncMetadata) :
    Except DecryptError String :=
  match metadata.iv with
  | none => .error .noIV
  | some iv_b64 =>
    if iv_b64 = "" then .error .noIV
    else
      match b64Decode iv_b64 with
      | none => .error .ivDecodeFailed
      | some iv =>
        match aesgcm_decrypt (derive_key_from_metadata metadata) iv encrypted_data with
        | none => .error .authFailed
        | some plaintext_bytes =>
          match utf8Decode plaintext_bytes with
          | none => .error .utf8DecodeFailed
          | some s => .ok s

/-- State-passing form of `decrypt_message`: the second component is the
caller's metadata dict after the call.  No statement of the source function
assigns into the dict, so it is returned unchanged on every path. -/
def decrypt_message_run (encrypted_data : Bytes) (metadata : EncMetadata) :
    Except DecryptError String × EncMetadata :=
  (decrypt_message encrypted_data metadata, metadata)

/-- Embedding of `verify_message_hash` (hashes the UTF-8 encoding of its
string argument and compares with the expected digest). -/
def verify_message_hash (message : String) (expected_hash : Nat) : Bool :=
  sha256_hexdigest (utf8Encode message) == expected_hash

/-- Round trip of the codec at the level of the two functions: decrypting
an `encrypt_message` ciphertext under the metadata returned by the same
call recovers the plaintext, for any real nonce (nonempty bytes, as
`generate_iv` always produces 12 random bytes). -/
theorem decrypt_message_encrypt_message (plaintext : String)
    (request_metadata : EncMetadata) (iv : Bytes) (hiv : IsBytes iv) (hne : iv ≠ []) :
    decrypt_message (encrypt_message plaintext request_metadata iv).1
      (encrypt_message plaintext request_metadata iv).2 = .ok plaintext := by
  unfold encrypt_message decrypt_message
  simp only []
  rw [if_neg (b64Encode_ne_empty iv hne)]
  rw [b64Decode_b64Encode iv hiv]
  rw [derive_key_const, derive_key_const]
  dsimp only []
  rw [aesgcm_decrypt_encrypt]
  dsimp only []
  rw [utf8Decode_utf8Encode]

/-!
Embedding of the session store (`server/session_manager.py`) over the
SQLAlchemy models of `server/models.py` (with the encrypted-storage columns
added by migration 30b4eacfaccd).  The database is a record of row lists;
a single counter supplies both the server-assigned primary keys and the
server-assigned `created_at` / `updated_at` timestamps, so later inserts
always carry strictly larger timestamps, which is what `func.now()` /
`datetime.utcnow()` provide.  The ownership query
`filter(ChatSession.id == session_id, ChatSession.user_id == user_id).first()`
is `List.find?` over the session rows.
-/

structure SessionRow where
  id : Nat
  user_id : String
  title : Option String
  created_at : Nat
  updated_at : Nat
deriving DecidableEq

structure MessageRow where
  id : Nat
  session_id : Nat
  sender_type : String
  encrypted_content : Bytes
  encryption_metadata : EncMetadata
  content_hash : Nat
  message_data : Option (List String)
  created_at : Nat
deriving DecidableEq

structure DB where
  sessions : List SessionRow
  messages : List MessageRow
  nextId : Nat
deriving DecidableEq

/-- Ownership lookup shared by every store operation. -/
def find_session (db : DB) (session_id : Nat) (user_id : String) : Option SessionRow :=
  db.sessions.find? (fun s => s.id == session_id && s.user_id == user_id)

/-- Embedding of `create_session`: a falsy (`None` or empty) title is
replaced by the default placeholder. -/
def create_session (user_id : String) (db : DB) (title : Option String) : Nat × DB :=
  let t := match title with
    | none => "New Chat Session"
    | some s => if s = "" then "New Chat Session" else s
  (db.nextId,
    { sessions := db.sessions ++
        [{ id := db.nextId, user_id := user_id, title := some t,
           created_at := db.nextId, updated_at := db.nextId }]
      messages := db.messages
      nextId := db.nextId + 1 })

/-- Embedding of `add_message`: verifies ownership (raising
`ValueError("Session not found or access denied")` otherwise, modelled as
`Except.error`), inserts the message row, and bumps the owning session's
`updated_at`.  The hash-verification call in the source is commented out,
so `content_hash` is stored as supplied. -/
def add_message (session_id : Nat) (sender : String) (encrypted_content : Bytes)
    (encryption_metadata : EncMetadata) (content_hash : Nat) (db : DB) (user_id : String)
    (message_data : Option (List String)) : Except String (MessageRow × DB) :=
  match find_session db session_id user_id with
  | none => .error "Session not found or access denied"
  | some _ =>
    let row : MessageRow :=
      { id := db.nextId, session_id := session_id, sender_type := sender,
        encrypted_content := encrypted_content, encryption_metadata := encryption_metadata,
        content_hash := content_hash, message_data := message_data,
        created_at := db.nextId }
    .ok (row,
      { sessions := db.sessions.map (fun s =>
          if s.id == session_id && s.user_id == user_id then
            { s with updated_at := db.nextId }
          else s)
        messages := db.messages ++ [row]
        nextId := db.nextId + 1 })

/-- Wire form of one history entry as returned by `get_history` (ciphertext
base64-encoded for transport, everything else verbatim from the row). -/
structure HistoryEntry where
  id : Nat
  session_id : Nat
  sender_type : String
  encrypted_content : String
  encryption_metadata : EncMetadata
  content_hash : Nat
  message_data : Option (List String)
  created_at : Nat
deriving DecidableEq

def historyEntryOf (m : MessageRow) : HistoryEntry :=
  { id := m.id, session_id := m.session_id, sender_type := m.sender_type,
    encrypted_content := b64Encode m.encrypted_content,
    encryption_metadata := m.encryption_metadata, content_hash := m.content_hash,
    message_data := m.message_data, created_at := m.created_at }

/-- Order used by `order_by(ChatMessage.created_at)`. -/
def msgLE (m1 m2 : MessageRow) : Prop := m1.created_at ≤ m2.created_at

instance (m1 m2 : MessageRow) : Decidable (msgLE m1 m2) := by unfold msgLE; infer_instance

/-- Embedding of `get_history`: same ownership check as `add_message`, then
the session's messages ordered by `created_at`, serialised as
`HistoryEntry` records. -/
def get_history (session_id : Nat) (db : DB) (user_id : String) :
    Except String (List HistoryEntry) :=
  match find_session db session_id user_id with
  | none => .error "Session not found or access denied"
  | some _ =>
    .ok (((db.messages.filter (fun m => m.session_id == session_id)).insertionSort
      msgLE).map historyEntryOf)

/-- Embedding of `get_session_by_id` (returns `None` on ownership mismatch
rather than raising). -/
def get_session_by_id (session_id : Nat) (user_id : String) (db : DB) : Option SessionRow :=
  find_session db session_id user_id

/-- Embedding of `_verify_content_hash`.  Python returns `False` when the
content or the claimed hash is falsy (`b""` or `""`); the falsy digest is
the value `0` in the model, which `sha256_hexdigest` never returns. -/
def verify_content_hash (encrypted_content : Bytes) (content_hash : Nat) : Bool :=
  if encrypted_content = [] ∨ content_hash = 0 then false
  else sha256_hexdigest encrypted_content == content_hash

/-- Timestamps of stored messages are strictly below the id counter, and
appear in strictly increasing order along the table; ditto for sessions.
Every database reachable by the store operations satisfies this. -/
def DBWellFormed (db : DB) : Prop :=
  db.messages.Pairwise (fun m1 m2 => m1.created_at < m2.created_at) ∧
    (∀ m ∈ db.messages, m.created_at < db.nextId) ∧
    (∀ s ∈ db.sessions, s.id < db.nextId)

theorem create_session_wf (user_id : String) (db : DB) (title : Option String)
    (h : DBWellFormed db) : DBWellFormed (create_session user_id db title).2 := by
  obtain ⟨h1, h2, h3⟩ := h
  unfold create_session DBWellFormed
  dsimp only
  refine ⟨h1, ?_, ?_⟩
  · intro m hm
    have := h2 m hm
    omega
  · intro s hs
    simp only [List.mem_append, List.mem_singleton] at hs
    rcases hs with hs | hs
    · have := h3 s hs
      omega
    · subst hs
      dsimp only
      omega

theorem add_message_wf (session_id : Nat) (sender : String) (ec : Bytes)
    (md : EncMetadata) (ch : Nat) (db : DB) (user_id : String)
    (mdata : Option (List String)) (row : MessageRow) (db2 : DB)
    (h : DBWellFormed db)
    (hok : add_message session_id sender ec md ch db user_id mdata = .ok (row, db2)) :
    DBWellFormed db2 := by
  obtain ⟨h1, h2, h3⟩ := h
  unfold add_message at hok
  match hfind : find_session db session_id user_id with
  | none => rw [hfind] at hok; exact absurd hok (by simp)
  | some s0 =>
    rw [hfind] at hok
    simp only [Except.ok.injEq, Prod.mk.injEq] at hok
    obtain ⟨hrow, hdb2⟩ := hok
    rw [← hdb2]
    unfold DBWellFormed
    dsimp only
    refine ⟨?_, ?_, ?_⟩
    · rw [List.pairwise_append]
      refine ⟨h1, by simp, ?_⟩
      intro m hm m2 hm2
      simp only [List.mem_singleton] at hm2
      subst hm2
      dsimp only
      exact h2 m hm
    · intro m hm
      simp only [List.mem_append, List.mem_singleton] at hm
      rcases hm with hm | hm
      · have := h2 m hm
        omega
      · subst hm
        dsimp only
        omega
    · intro s hs
      simp only [List.mem_map] at hs
      obtain ⟨s1, hs1, hmap⟩ := hs
      have := h3 s1 hs1
      subst hmap
      split
      · dsimp only
        omega
      · omega

theorem get_history_eq (session_id : Nat) (db : DB) (user_id : String) (s : SessionRow)
    (hfind : find_session db session_id user_id = some s)
    (hord : db.messages.Pairwise (fun m1 m2 => m1.created_at < m2.created_at)) :
    get_history session_id db user_id =
      .ok ((db.messages.filter (fun m => m.session_id == session_id)).map historyEntryOf) := by
  unfold get_history
  rw [hfind]
  have hsorted : List.Sorted msgLE (db.messages.filter (fun m => m.session_id == session_id)) := by
    have hsub := List.filter_sublist (p := fun m => m.session_id == session_id) db.messages
    have hp := List.Pairwise.sublist hsub hord
    exact hp.imp (fun h => Nat.le_of_lt h)
  rw [List.Sorted.insertionSort_eq hsorted]

/-- After a successful `add_message`, the owning session is still found by
the same ownership query (only its `updated_at` moved). -/
theorem find_session_after_add (session_id : Nat) (sender : String) (ec : Bytes)
    (md : EncMetadata) (ch : Nat) (db : DB) (user_id : String)
    (mdata : Option (List String)) (row : MessageRow) (db2 : DB) (s0 : SessionRow)
    (hfind : find_session db session_id user_id = some s0)
    (hok : add_message session_id sender ec md ch db user_id mdata = .ok (row, db2)) :
    find_session db2 session_id user_id = some { s0 with updated_at := db.nextId } := by
  unfold add_message at hok
  rw [hfind] at hok
  simp only [Except.ok.injEq, Prod.mk.injEq] at hok
  obtain ⟨_, hdb2⟩ := hok
  rw [← hdb2]
  unfold find_session
  dsimp only
  rw [List.find?_map _ db.sessions]
  have hcomp : ∀ s : SessionRow,
      ((fun s : SessionRow => s.id == session_id && s.user_id == user_id) ∘
        (fun s : SessionRow =>
          if s.id == session_id && s.user_id == user_id then
            { s with updated_at := db.nextId }
          else s)) s =
      (fun s : SessionRow => s.id == session_id && s.user_id == user_id) s := by
    intro s
    dsimp only [Function.comp]
    split
    · dsimp only
    · rfl
  rw [funext hcomp]
  unfold find_session at hfind
  rw [hfind]
  have hcond := List.find?_some hfind
  dsimp only [Option.map]
  rw [if_pos hcond]

/-!
Embedding of the chat pipeline (`server/routers/chat.py`, `chat_endpoint`).
The generation backend call (`requests.post` to the LLM service) is an
external collaborator and enters the model as an `LLMOutcome` argument:
either an HTTP response with a status code and a parsed body, or a raised
exception (connection error / timeout).  The fresh nonce consumed by the
single `encrypt_message` call of the turn is the `response_iv` argument.
Python exceptions map to `Except.error`: the ownership failure is HTTP 403,
and `ValueError` (including `binascii.Error` from base64) is HTTP 400.
Everything inside the source's inner `try` (decrypting the inbound message,
decrypting the history, calling the backend, parsing its body) falls into
the fallback path on any failure, which is what `chat_attempt = none`
captures.
-/

inductive LLMOutcome where
  | response (status_code : Nat) (answer : String) (sources : List String)
  | raised
deriving DecidableEq

structure ChatRequest where
  session_id : Option Nat
  title : Option String
  encrypted_message : String
  encryption_metadata : EncMetadata
  content_hash : Nat
deriving DecidableEq

structure ChatResponse where
  session_id : Nat
  encrypted_response : String
  encryption_metadata : EncMetadata
  content_hash : Nat
  sources : List String
deriving DecidableEq

inductive HttpError where
  | forbidden (detail : String)
  | badRequest (detail : String)
deriving DecidableEq

/-- Fallback reply used when the LLM service answers with a non-200
status. -/
def kb_fallback_text : String :=
  "I\x27m having trouble accessing my knowledge base right now. Please try again later."

/-- Fallback reply used when any exception is raised while preparing for or
calling the LLM service. -/
def tech_fallback_text : String :=
  "I\x27m experiencing technical difficulties. Please try again later."

/-- Plaintext-history assembly: every entry with a nonempty ciphertext is
base64-decoded and decrypted under its own stored metadata; any failure
aborts the whole assembly (`none`), mirroring the exception leaving the
loop. -/
def decryptHistory : List HistoryEntry → Option (List (String × String))
  | [] => some []
  | e :: rest =>
    if e.encrypted_content = "" then decryptHistory rest
    else
      match b64Decode e.encrypted_content with
      | none => none
      | some bytes =>
        match decrypt_message bytes e.encryption_metadata with
        | .error _ => none
        | .ok txt =>
          match decryptHistory rest with
          | none => none
          | some tail => some ((e.sender_type, txt) :: tail)

/-- Body of the source's inner `try` block up to and including the backend
call: `none` means an exception was raised somewhere inside it. -/
def chat_attempt (encrypted_message_bytes : Bytes) (md : EncMetadata)
    (history : List HistoryEntry) (llm : LLMOutcome) : Option (Nat × String × List String) :=
  match decrypt_message encrypted_message_bytes md with
  | .error _ => none
  | .ok _ =>
    match decryptHistory history with
    | none => none
    | some _ =>
      match llm with
      | .raised => none
      | .response code answer sources => some (code, answer, sources)

/-- Choice of the plaintext reply and sources: the parsed body on status
200, the knowledge-base fallback on any other status, the
technical-difficulties fallback when the attempt raised. -/
def chat_reply (attempt : Option (Nat × String × List String)) : String × List String :=
  match attempt with
  | none => (tech_fallback_text, [])
  | some (code, answer, sources) =>
    if code = 200 then (answer, sources) else (kb_fallback_text, [])

def chat_endpoint (msg : ChatRequest) (user_id : String) (db : DB) (response_iv : Bytes)
    (llm : LLMOutcome) : Except HttpError (ChatResponse × DB) :=
  match (match msg.session_id with
    | none => Except.ok (create_session user_id db (some (match msg.title with
        | none => "New Chat Session"
        | some t => if t = "" then "New Chat Session" else t)))
    | some sid =>
      match get_session_by_id sid user_id db with
      | none => Except.error (HttpError.forbidden "Access denied to this session")
      | some _ => Except.ok (sid, db)) with
  | .error e => .error e
  | .ok (session_id, db0) =>
    match b64Decode msg.encrypted_message with
    | none => .error (.badRequest "Invalid base64-encoded string")
    | some encrypted_message_bytes =>
      match add_message session_id "user" encrypted_message_bytes msg.encryption_metadata
          msg.content_hash db0 user_id none with
      | .error e => .error (.badRequest e)
      | .ok (_, db1) =>
        match get_history session_id db1 user_id with
        | .error e => .error (.badRequest e)
        | .ok history =>
          let answer := chat_reply (chat_attempt encrypted_message_bytes
            msg.encryption_metadata history llm)
          let enc := encrypt_message answer.1 msg.encryption_metadata response_iv
          let encrypted_answer_b64 := b64Encode enc.1
          let answer_hash := sha256_hexdigest (utf8Encode answer.1)
          let encrypted_answer_bytes := (b64Decode encrypted_answer_b64).getD []
          match add_message session_id "bot" encrypted_answer_bytes enc.2 answer_hash db1
              user_id (some answer.2) with
          | .error e => .error (.badRequest e)
          | .ok (_, db2) =>
            .ok ({ session_id := session_id, encrypted_response := encrypted_answer_b64,
                   encryption_metadata := enc.2, content_hash := answer_hash,
                   sources := answer.2 }, db2)

/-!
Claims.
-/

/-- Shared concrete 12-byte nonce used in witnesses, standing for one
output of `generate_iv`. -/
def iv12 : Bytes := [0, 1, 2, 3, 4, 5, 6, 7, 8, 9, 10, 11]

/-- C10: for every plaintext and inbound metadata, the outbound metadata
returned by `encrypt_message` has algorithm exactly AES-256-GCM, `key_id`
equal to the inbound `key_id` (or the string placeholder when absent), and
`created_at` copied verbatim from the inbound metadata (or the string
unknown when absent) — the provenance timestamp is never freshly generated
by the codec. -/
theorem C10_outbound_metadata (plaintext : String) (request_metadata : EncMetadata)
    (iv : Bytes) :
    (encrypt_message plaintext request_metadata iv).2 =
      { algorithm := some "AES-256-GCM"
        key_id := some (request_metadata.key_id.getD "placeholder")
        iv := some (b64Encode iv)
        created_at := some (request_metadata.created_at.getD "unknown") } := rfl

/-- C1: for every plaintext string P and every metadata map M carrying a
`key_id`, decrypting the ciphertext produced by `encrypt_message` with the
metadata returned by that same call yields P again.  The nonce argument
models the 12 random bytes of `generate_iv`. -/
theorem C1_roundtrip (P : String) (M : EncMetadata) (iv : Bytes)
    (hiv : IsBytes iv) (hlen : iv.length = 12) (hkey : M.key_id.isSome = true) :
    decrypt_message (encrypt_message P M iv).1 (encrypt_message P M iv).2 =
      .ok P := by
  apply decrypt_message_encrypt_message P M iv hiv
  intro h
  rw [h] at hlen
  simp at hlen

theorem C1_roundtrip_witness :
    decrypt_message
        (encrypt_message "Hello!" ⟨none, some "flutter_app_key", none, some "now"⟩ iv12).1
        (encrypt_message "Hello!" ⟨none, some "flutter_app_key", none, some "now"⟩ iv12).2 =
      .ok "Hello!" :=
  C1_roundtrip "Hello!" ⟨none, some "flutter_app_key", none, some "now"⟩ iv12
    (by decide) (by decide) (by decide)

/-- C5 counterexample: the claim quantifies over every ciphertext, but
`_verify_content_hash` returns `False` for the empty ciphertext even
against its own correctly computed digest, because of the falsiness guard
(`if not encrypted_content ... return False`). -/
theorem C5_counterexample :
    verify_content_hash [] (sha256_hexdigest []) = false ∧
      sha256_hexdigest [] = sha256_hexdigest [] := by
  constructor
  · rfl
  · rfl

/-- C5 amended: for every nonempty ciphertext the digest check of
`_verify_content_hash` succeeds exactly on the matching digest, distinct
ciphertexts never cross-verify, and `verify_message_hash` (which has no
falsiness guard) satisfies the hash-binding property for all strings;
the empty ciphertext is rejected by `_verify_content_hash` regardless of
the digest. -/
theorem C5_hash_binding :
    (∀ c : Bytes, IsBytes c → c ≠ [] →
      verify_content_hash c (sha256_hexdigest c) = true) ∧
    (∀ c c2 : Bytes, IsBytes c → IsBytes c2 → c ≠ c2 →
      verify_content_hash c (sha256_hexdigest c2) = false) ∧
    (∀ (c : Bytes) (h : Nat), c ≠ [] →
      (verify_content_hash c h = true ↔ sha256_hexdigest c = h)) ∧
    (∀ s : String, verify_message_hash s (sha256_hexdigest (utf8Encode s)) = true) ∧
    (∀ s t : String, s ≠ t →
      verify_message_hash s (sha256_hexdigest (utf8Encode t)) = false) := by
  refine ⟨?_, ?_, ?_, ?_, ?_⟩
  · intro c _ hne
    unfold verify_content_hash
    rw [if_neg (by
      intro hor
      rcases hor with h | h
      · exact hne h
      · exact sha256_hexdigest_ne_zero c h)]
    simp
  · intro c c2 hc hc2 hne
    unfold verify_content_hash
    by_cases hz : c = [] ∨ sha256_hexdigest c2 = 0
    · rw [if_pos hz]
    · rw [if_neg hz]
      simp only [beq_eq_false_iff_ne, ne_eq]
      intro heq
      exact hne (sha256_hexdigest_inj hc hc2 heq)
  · intro c h hne
    unfold verify_content_hash
    by_cases hz : h = 0
    · rw [if_pos (Or.inr hz)]
      subst hz
      simp only [Bool.false_eq_true, false_iff]
      exact sha256_hexdigest_ne_zero c
    · rw [if_neg (by
        intro hor
        rcases hor with h2 | h2
        · exact hne h2
        · exact hz h2)]
      simp
  · intro s
    unfold verify_message_hash
    simp
  · intro s t hne
    unfold verify_message_hash
    simp only [beq_eq_false_iff_ne, ne_eq]
    intro heq
    have hb := sha256_hexdigest_inj (utf8Encode_isBytes s) (utf8Encode_isBytes t) heq
    exact hne (utf8Encode_inj hb)

theorem C5_hash_binding_witness :
    verify_content_hash [1, 2, 3] (sha256_hexdigest [1, 2, 3]) = true ∧
    verify_content_hash [1, 2, 3] (sha256_hexdigest [9]) = false ∧
    verify_message_hash "abc" (sha256_hexdigest (utf8Encode "abc")) = true ∧
    verify_message_hash "abc" (sha256_hexdigest (utf8Encode "abd")) = false :=
  ⟨C5_hash_binding.1 [1, 2, 3] (by decide) (by decide),
   C5_hash_binding.2.1 [1, 2, 3] [9] (by decide) (by decide) (by decide),
   C5_hash_binding.2.2.2.1 "abc",
   C5_hash_binding.2.2.2.2 "abc" "abd" (by decide)⟩

/-- C8 counterexample: the algorithm tag is not checked against any closed
set — `decrypt_message` happily decrypts a ciphertext whose metadata
carries an unsupported algorithm tag, and `encrypt_message` accepts it and
proceeds, so neither function fails fast. -/
theorem C8_counterexample :
    decrypt_message (aesgcm_encrypt placeholder_key iv12 (utf8Encode "hi"))
        ⟨some "ROT13-UNSUPPORTED", none, some (b64Encode iv12), none⟩ =
      .ok "hi" ∧
    (encrypt_message "hi" ⟨some "ROT13-UNSUPPORTED", none, none, none⟩ iv12).2.algorithm =
      some "AES-256-GCM" := by
  constructor
  · rfl
  · rfl

/-- C8 amended: neither `encrypt_message` nor `decrypt_message` inspects
the metadata's algorithm tag; both behave identically for every value of
the tag (no check, no failure, no defaulting on the input side), and
`encrypt_message` always stamps the fixed AES-256-GCM tag on its output
metadata. -/
theorem C8_algorithm_tag_ignored (ct : Bytes) (md : EncMetadata) (alg : Option String)
    (P : String) (iv : Bytes) :
    decrypt_message ct { md with algorithm := alg } = decrypt_message ct md ∧
    encrypt_message P { md with algorithm := alg } iv = encrypt_message P md iv ∧
    (encrypt_message P md iv).2.algorithm = some "AES-256-GCM" :=
  ⟨rfl, rfl, rfl⟩


/-- C4 counterexample: `decrypt_message` has a fourth failure mode outside
the claim's exhaustive list.  With the metadata's IV present and
decodable, and the authentication tag verifying (keys are fixed in this
codebase, so the forged ciphertext below authenticates), decryption still
raises because the authenticated plaintext bytes `0xFF` are not valid
UTF-8 — so the failure set is not exactly those three conditions. -/
theorem C4_counterexample :
    decrypt_message ([0xFF] ++ gcmTag placeholder_key iv12 [0xFF])
        ⟨some "AES-256-GCM", none, some (b64Encode iv12), none⟩ =
      .error .utf8DecodeFailed ∧
    (⟨some "AES-256-GCM", none, some (b64Encode iv12), none⟩ : EncMetadata).iv =
      some (b64Encode iv12) ∧
    b64Decode (b64Encode iv12) = some iv12 ∧
    aesgcm_decrypt
        (derive_key_from_metadata ⟨some "AES-256-GCM", none, some (b64Encode iv12), none⟩)
        iv12 ([0xFF] ++ gcmTag placeholder_key iv12 [0xFF]) = some [0xFF] := by
  refine ⟨rfl, rfl, ?_, rfl⟩
  exact b64Decode_b64Encode iv12 (by decide)

/-- C4 amended: `decrypt_message` fails exactly when the metadata lacks an
IV entry (or it is the empty string), the IV cannot be base64-decoded, the
AES-GCM authentication tag fails to verify, or the authenticated plaintext
bytes are not valid UTF-8; flipping any single bit of a ciphertext
produced by `encrypt_message` makes decryption fail with the tag error
rather than returning corrupted plaintext; and on every outcome the
metadata passed in is left unchanged. -/
theorem C4_decrypt_failure_modes :
    (∀ (ct : Bytes) (md : EncMetadata), (∃ e, decrypt_message ct md = .error e) ↔
      (md.iv = none ∨ md.iv = some "" ∨
       (∃ s, md.iv = some s ∧ s ≠ "" ∧ b64Decode s = none) ∨
       (∃ s iv, md.iv = some s ∧ s ≠ "" ∧ b64Decode s = some iv ∧
         aesgcm_decrypt (derive_key_from_metadata md) iv ct = none) ∨
       (∃ s iv pt, md.iv = some s ∧ s ≠ "" ∧ b64Decode s = some iv ∧
         aesgcm_decrypt (derive_key_from_metadata md) iv ct = some pt ∧
         utf8Decode pt = none))) ∧
    (∀ (P : String) (md : EncMetadata) (iv : Bytes) (i bit : Nat),
      IsBytes iv → iv ≠ [] →
      i < (encrypt_message P md iv).1.length →
      (i < (utf8Encode P).length → bit < 8) →
      decrypt_message (flipBitAt (encrypt_message P md iv).1 i bit)
        (encrypt_message P md iv).2 = .error .authFailed) ∧
    (∀ (ct : Bytes) (md : EncMetadata), (decrypt_message_run ct md).2 = md) := by
  refine ⟨?_, ?_, ?_⟩
  · intro ct md
    constructor
    · intro hex
      match hiv : md.iv with
      | none => exact Or.inl rfl
      | some s =>
        by_cases hs : s = ""
        · exact Or.inr (Or.inl (by rw [hs]))
        · match hb : b64Decode s with
          | none => exact Or.inr (Or.inr (Or.inl ⟨s, rfl, hs, hb⟩))
          | some iv =>
            match ha : aesgcm_decrypt (derive_key_from_metadata md) iv ct with
            | none => exact Or.inr (Or.inr (Or.inr (Or.inl ⟨s, iv, rfl, hs, hb, ha⟩)))
            | some pt =>
              match hu : utf8Decode pt with
              | none =>
                exact Or.inr (Or.inr (Or.inr (Or.inr ⟨s, iv, pt, rfl, hs, hb, ha, hu⟩)))
              | some s2 =>
                exfalso
                obtain ⟨e, he⟩ := hex
                unfold decrypt_message at he
                rw [hiv] at he
                dsimp only at he
                rw [if_neg hs, hb] at he
                dsimp only at he
                rw [ha] at he
                dsimp only at he
                rw [hu] at he
                dsimp only at he
                exact absurd he (by simp)
    · intro hdisj
      rcases hdisj with hiv | hiv | ⟨s, hiv, hs, hb⟩ | ⟨s, iv, hiv, hs, hb, ha⟩ |
        ⟨s, iv, pt, hiv, hs, hb, ha, hu⟩
      · refine ⟨.noIV, ?_⟩
        unfold decrypt_message
        rw [hiv]
      · refine ⟨.noIV, ?_⟩
        unfold decrypt_message
        rw [hiv]
        dsimp only
        rw [if_pos rfl]
      · refine ⟨.ivDecodeFailed, ?_⟩
        unfold decrypt_message
        rw [hiv]
        dsimp only
        rw [if_neg hs, hb]
      · refine ⟨.authFailed, ?_⟩
        unfold decrypt_message
        rw [hiv]
        dsimp only
        rw [if_neg hs, hb]
        dsimp only
        rw [ha]
      · refine ⟨.utf8DecodeFailed, ?_⟩
        unfold decrypt_message
        rw [hiv]
        dsimp only
        rw [if_neg hs, hb]
        dsimp only
        rw [ha]
        dsimp only
        rw [hu]
  · intro P md iv i bit hiv hne hi hbit
    unfold encrypt_message at hi ⊢
    dsimp only at hi ⊢
    unfold decrypt_message
    dsimp only
    rw [if_neg (b64Encode_ne_empty iv hne)]
    rw [b64Decode_b64Encode iv hiv]
    rw [derive_key_const]
    rw [derive_key_const] at hi ⊢
    dsimp only
    rw [aesgcm_tamper placeholder_key iv (utf8Encode P) (utf8Encode_isBytes P) i bit
      hi hbit]
  · intro ct md
    rfl

theorem C4_decrypt_failure_modes_witness :
    decrypt_message [5] ⟨none, none, none, none⟩ = .error DecryptError.noIV ∧
    decrypt_message
        (flipBitAt (encrypt_message "hi" ⟨none, some "k", none, none⟩ iv12).1 0 3)
        (encrypt_message "hi" ⟨none, some "k", none, none⟩ iv12).2 =
      .error .authFailed ∧
    (decrypt_message_run [5] ⟨none, some "k", none, none⟩).2 =
      ⟨none, some "k", none, none⟩ := by
  refine ⟨?_, ?_, ?_⟩
  · have h := (C4_decrypt_failure_modes.1 [5] ⟨none, none, none, none⟩).mpr (Or.inl rfl)
    obtain ⟨e, he⟩ := h
    cases e
    · exact he
    · exact absurd he (by decide)
    · exact absurd he (by decide)
    · exact absurd he (by decide)
  · exact C4_decrypt_failure_modes.2.1 "hi" ⟨none, some "k", none, none⟩ iv12 0 3
      (by decide) (by decide) (by decide) (by decide)
  · exact C4_decrypt_failure_modes.2.2 [5] ⟨none, some "k", none, none⟩

/-- C3: for distinct users A and B and a session owned by A, history reads
and message appends with B fail with the single access-denied outcome
(carrying none of the session's data), the same operations with A succeed,
and the denied outcome is byte-for-byte the outcome for a session id that
does not exist at all. -/
theorem C3_ownership_isolation (db : DB) (A B : String) (sid : Nat) (r : SessionRow)
    (hAB : A ≠ B)
    (hA : find_session db sid A = some r)
    (huniq : ∀ s ∈ db.sessions, s.id = sid → s.user_id = A)
    (sender : String) (ec : Bytes) (md : EncMetadata) (ch : Nat)
    (mdata : Option (List String)) :
    get_history sid db B = .error "Session not found or access denied" ∧
    add_message sid sender ec md ch db B mdata =
      .error "Session not found or access denied" ∧
    (get_history sid db A).isOk = true ∧
    (add_message sid sender ec md ch db A mdata).isOk = true ∧
    (∀ sid2, (∀ s ∈ db.sessions, s.id ≠ sid2) →
      get_history sid2 db B = get_history sid db B ∧
      add_message sid2 sender ec md ch db B mdata =
        add_message sid sender ec md ch db B mdata) := by
  have hBnone : find_session db sid B = none := by
    unfold find_session
    apply List.find?_eq_none.mpr
    intro s hs hP
    simp only [Bool.and_eq_true, beq_iff_eq] at hP
    exact hAB (((huniq s hs hP.1).symm.trans hP.2))
  refine ⟨?_, ?_, ?_, ?_, ?_⟩
  · unfold get_history
    rw [hBnone]
  · unfold add_message
    rw [hBnone]
  · unfold get_history
    rw [hA]
    rfl
  · unfold add_message
    rw [hA]
    rfl
  · intro sid2 hempty
    have h2 : find_session db sid2 B = none := by
      unfold find_session
      apply List.find?_eq_none.mpr
      intro s hs hP
      simp only [Bool.and_eq_true, beq_iff_eq] at hP
      exact hempty s hs hP.1
    constructor
    · unfold get_history
      rw [h2, hBnone]
    · unfold add_message
      rw [h2, hBnone]

/-- Concrete store used by witnesses for the ownership and ordering
claims: one session owned by alice with two stored messages. -/
def rowW1 : MessageRow :=
  { id := 1, session_id := 5, sender_type := "user", encrypted_content := [1, 2, 3],
    encryption_metadata := ⟨none, some "k", none, none⟩, content_hash := 7,
    message_data := none, created_at := 1 }

def rowW2 : MessageRow :=
  { id := 2, session_id := 5, sender_type := "bot", encrypted_content := [4, 5],
    encryption_metadata := ⟨none, some "k", none, none⟩, content_hash := 9,
    message_data := some ["src"], created_at := 2 }

def sessW : SessionRow :=
  { id := 5, user_id := "alice", title := some "T", created_at := 0, updated_at := 0 }

def dbW : DB := { sessions := [sessW], messages := [rowW1, rowW2], nextId := 6 }

theorem C3_ownership_isolation_witness :
    get_history 5 dbW "bob" = .error "Session not found or access denied" ∧
    (get_history 5 dbW "alice").isOk = true ∧
    get_history 99 dbW "bob" = get_history 5 dbW "bob" := by
  have h := C3_ownership_isolation dbW "alice" "bob" 5 sessW
    (by decide) (by decide) (by decide) "user" [1] ⟨none, none, none, none⟩ 3 none
  exact ⟨h.1, h.2.2.1, (h.2.2.2.2 99 (by decide)).1⟩

/-- C9: for a session and owner that pass the ownership check, the history
is exactly the session's stored messages in insertion order (the
`created_at` sort is the identity on a well-formed store), and every entry
carries the stored encryption metadata and content hash verbatim, with the
ciphertext base64-encoded for transport and decoding back to exactly the
stored bytes. -/
theorem C9_history_contents (sid : Nat) (db : DB) (u : String) (s : SessionRow)
    (hfind : find_session db sid u = some s) (hwf : DBWellFormed db) :
    get_history sid db u =
      .ok ((db.messages.filter (fun m => m.session_id == sid)).map historyEntryOf) ∧
    ∀ m ∈ db.messages.filter (fun m => m.session_id == sid),
      (historyEntryOf m).encryption_metadata = m.encryption_metadata ∧
      (historyEntryOf m).content_hash = m.content_hash ∧
      (historyEntryOf m).encrypted_content = b64Encode m.encrypted_content ∧
      (IsBytes m.encrypted_content →
        b64Decode ((historyEntryOf m).encrypted_content) = some m.encrypted_content) := by
  refine ⟨get_history_eq sid db u s hfind hwf.1, ?_⟩
  intro m _
  refine ⟨rfl, rfl, rfl, ?_⟩
  intro hbytes
  exact b64Decode_b64Encode _ hbytes

theorem C9_history_contents_witness :
    get_history 5 dbW "alice" =
      .ok ((dbW.messages.filter (fun m => m.session_id == 5)).map historyEntryOf) ∧
    b64Decode (historyEntryOf rowW1).encrypted_content = some rowW1.encrypted_content := by
  have h := C9_history_contents 5 dbW "alice" sessW
    (by decide) (by exact ⟨by decide, by decide, by decide⟩)
  exact ⟨h.1, (h.2 rowW1 (by decide)).2.2.2 (by decide)⟩

/-- First user message used in the title-derivation counterexample; longer
than any plausible title limit and not starting with the letter of the
default placeholder. -/
def longFirstMessage : String :=
  "Hello, I have been feeling anxious lately and I really need someone to talk to about all of it"

def longFirstCiphertext : Bytes :=
  aesgcm_encrypt placeholder_key iv12 (utf8Encode longFirstMessage)

def msg7 : ChatRequest :=
  { session_id := none, title := none,
    encrypted_message := b64Encode longFirstCiphertext,
    encryption_metadata := ⟨some "AES-256-GCM", none, some (b64Encode iv12), none⟩,
    content_hash := sha256_hexdigest longFirstCiphertext }

def iv12b : Bytes := [11, 10, 9, 8, 7, 6, 5, 4, 3, 2, 1, 0]

def dummyMsgRow : MessageRow :=
  { id := 0, session_id := 0, sender_type := "", encrypted_content := [],
    encryption_metadata := ⟨none, none, none, none⟩, content_hash := 0,
    message_data := none, created_at := 0 }

set_option maxRecDepth 100000 in
/-- C7 counterexample: running a full chat turn whose first user-role
message is appended to a freshly created session (title still the default
placeholder) leaves the title exactly at the default placeholder — it is
not set to any prefix of the decrypted message text (the placeholder and
the message do not even share a first character), so no fixed-length
prefix derivation or ellipsis truncation happens anywhere in the turn. -/
theorem C7_counterexample :
    ((chat_endpoint msg7 "u" ⟨[], [], 0⟩ iv12b (.response 200 "ok" [])).toOption.map
      (fun r => (r.2.sessions.map (fun srow => srow.title), r.2.messages.length,
        (r.2.messages.getD 0 dummyMsgRow).sender_type))) =
      some ([some "New Chat Session"], 2, "user") ∧
    "New Chat Session".toList.head? = some 'N' ∧
    longFirstMessage.toList.head? = some 'H' := by
  refine ⟨by decide, rfl, rfl⟩

/-- C7 amended: appending a message never modifies any session's title
(only the owning session's last-update time moves): the title is fixed at
session creation — from the caller-supplied title or the default
placeholder — so in particular a non-default title is never overwritten by
appends, and no title is ever derived from message text. -/
theorem C7_appends_never_touch_title (sid : Nat) (sender : String) (ec : Bytes)
    (md : EncMetadata) (ch : Nat) (db : DB) (u : String) (mdata : Option (List String))
    (r : MessageRow) (db2 : DB)
    (hok : add_message sid sender ec md ch db u mdata = .ok (r, db2)) :
    db2.sessions.map (fun srow => srow.title) = db.sessions.map (fun srow => srow.title) := by
  unfold add_message at hok
  match hf : find_session db sid u with
  | none =>
    rw [hf] at hok
    exact absurd hok (by simp)
  | some s0 =>
    rw [hf] at hok
    simp only [Except.ok.injEq, Prod.mk.injEq] at hok
    obtain ⟨_, hdb2⟩ := hok
    rw [← hdb2]
    dsimp only
    rw [List.map_map]
    apply List.map_congr_left
    intro s _
    dsimp only [Function.comp]
    split
    · rfl
    · rfl

def rowW3 : MessageRow :=
  { id := 6, session_id := 5, sender_type := "user", encrypted_content := [9],
    encryption_metadata := ⟨none, none, none, none⟩, content_hash := 4,
    message_data := none, created_at := 6 }

theorem C7_appends_never_touch_title_witness :
    ({ sessions := [{ sessW with updated_at := 6 }],
       messages := [rowW1, rowW2, rowW3],
       nextId := 7 } : DB).sessions.map (fun srow => srow.title) =
      dbW.sessions.map (fun srow => srow.title) :=
  C7_appends_never_touch_title 5 "user" [9] ⟨none, none, none, none⟩ 4 dbW "alice"
    none rowW3 _ (by decide)

/-- Database state after `add_message` inserts a row into an owned
session: the owning session's `updated_at` is bumped and the row appended. -/
def after_insert (db1 : DB) (sid : Nat) (u : String) (row : MessageRow) : DB :=
  { sessions := db1.sessions.map (fun s =>
      if s.id == sid && s.user_id == u then { s with updated_at := db1.nextId } else s)
    messages := db1.messages ++ [row]
    nextId := db1.nextId + 1 }

/-- C6: when the generation backend returns a non-success status or the
attempt to call it raises, the chat turn still completes successfully: the
response carries an empty sources list, the bot reply stored and returned
is the encryption of the fixed fallback string under the inbound request's
`key_id` (with the fresh response nonce), accompanied by a content hash,
and no error about the backend is surfaced to the caller. -/
theorem C6_fallback_on_upstream_failure
    (msg : ChatRequest) (u : String) (db : DB) (riv : Bytes) (llm : LLMOutcome)
    (sid : Nat) (s0 : SessionRow) (mbytes : Bytes) (urow : MessageRow) (db1 : DB)
    (hl : List HistoryEntry) (fb : String) (md2 : EncMetadata) (ct : Bytes)
    (hsid : msg.session_id = some sid)
    (hown : find_session db sid u = some s0)
    (hb64 : b64Decode msg.encrypted_message = some mbytes)
    (hadd : add_message sid "user" mbytes msg.encryption_metadata msg.content_hash db u
      none = .ok (urow, db1))
    (hhist : get_history sid db1 u = .ok hl)
    (hfb : chat_attempt mbytes msg.encryption_metadata hl llm = none ∨
      ∃ code ans srcs, chat_attempt mbytes msg.encryption_metadata hl llm =
        some (code, ans, srcs) ∧ code ≠ 200)
    (hfbdef : fb = (chat_reply (chat_attempt mbytes msg.encryption_metadata hl llm)).1)
    (hmd2 : md2 = (encrypt_message fb msg.encryption_metadata riv).2)
    (hct : ct = aesgcm_encrypt placeholder_key riv (utf8Encode fb))
    (hriv : IsBytes riv) (hrivne : riv ≠ []) :
    (fb = tech_fallback_text ∨ fb = kb_fallback_text) ∧
    ∃ db2, chat_endpoint msg u db riv llm = .ok
      ({ session_id := sid, encrypted_response := b64Encode ct,
         encryption_metadata := md2, content_hash := sha256_hexdigest (utf8Encode fb),
         sources := [] }, db2) ∧
      db2.messages = db1.messages ++
        [{ id := db1.nextId, session_id := sid, sender_type := "bot",
           encrypted_content := ct, encryption_metadata := md2,
           content_hash := sha256_hexdigest (utf8Encode fb),
           message_data := some [], created_at := db1.nextId }] ∧
      decrypt_message ct md2 = .ok fb ∧
      md2.key_id = some (msg.encryption_metadata.key_id.getD "placeholder") := by
  have hrep : ∃ t, chat_reply (chat_attempt mbytes msg.encryption_metadata hl llm) =
      (t, []) ∧ (t = tech_fallback_text ∨ t = kb_fallback_text) := by
    rcases hfb with hnone | ⟨code, ans, srcs, hsome, hcode⟩
    · refine ⟨tech_fallback_text, ?_, Or.inl rfl⟩
      rw [hnone]
      rfl
    · refine ⟨kb_fallback_text, ?_, Or.inr rfl⟩
      rw [hsome]
      unfold chat_reply
      dsimp only
      rw [if_neg hcode]
  obtain ⟨t, hrept, htor⟩ := hrep
  have hfbt : fb = t := by rw [hfbdef, hrept]
  subst hfbt
  subst hmd2
  subst hct
  have hencfst : (encrypt_message fb msg.encryption_metadata riv).1 =
      aesgcm_encrypt placeholder_key riv (utf8Encode fb) := by
    unfold encrypt_message
    rw [derive_key_const]
  have hctbytes : IsBytes (aesgcm_encrypt placeholder_key riv (utf8Encode fb)) :=
    aesgcm_encrypt_isBytes _ _ _ (utf8Encode_isBytes fb)
  have hround := b64Decode_b64Encode _ hctbytes
  have hfind1 : find_session db1 sid u = some { s0 with updated_at := db.nextId } :=
    find_session_after_add sid "user" mbytes msg.encryption_metadata msg.content_hash
      db u none urow db1 s0 hown hadd
  have hdec : decrypt_message (aesgcm_encrypt placeholder_key riv (utf8Encode fb))
      (encrypt_message fb msg.encryption_metadata riv).2 = .ok fb := by
    have h := decrypt_message_encrypt_message fb msg.encryption_metadata riv hriv hrivne
    rw [hencfst] at h
    exact h
  have hbot : add_message sid "bot" (aesgcm_encrypt placeholder_key riv (utf8Encode fb))
      (encrypt_message fb msg.encryption_metadata riv).2
      (sha256_hexdigest (utf8Encode fb)) db1 u (some ([] : List String)) =
      .ok
        ({ id := db1.nextId, session_id := sid, sender_type := "bot",
           encrypted_content := aesgcm_encrypt placeholder_key riv (utf8Encode fb),
           encryption_metadata := (encrypt_message fb msg.encryption_metadata riv).2,
           content_hash := sha256_hexdigest (utf8Encode fb),
           message_data := some [], created_at := db1.nextId },
         after_insert db1 sid u
           { id := db1.nextId, session_id := sid, sender_type := "bot",
             encrypted_content := aesgcm_encrypt placeholder_key riv (utf8Encode fb),
             encryption_metadata := (encrypt_message fb msg.encryption_metadata riv).2,
             content_hash := sha256_hexdigest (utf8Encode fb),
             message_data := some [], created_at := db1.nextId }) := by
    unfold add_message
    rw [hfind1]
    rfl
  refine ⟨by rw [hfbdef, hrept]; exact htor, ?_⟩
  refine ⟨after_insert db1 sid u
    { id := db1.nextId, session_id := sid, sender_type := "bot",
      encrypted_content := aesgcm_encrypt placeholder_key riv (utf8Encode fb),
      encryption_metadata := (encrypt_message fb msg.encryption_metadata riv).2,
      content_hash := sha256_hexdigest (utf8Encode fb),
      message_data := some [], created_at := db1.nextId }, ?_, rfl, hdec, rfl⟩
  · unfold chat_endpoint
    rw [hsid]
    dsimp only
    rw [show get_session_by_id sid u db = some s0 from hown]
    dsimp only
    rw [hb64]
    dsimp only
    rw [hadd]
    dsimp only
    rw [hhist]
    dsimp only
    rw [hrept]
    dsimp only
    rw [hencfst]
    rw [hround]
    simp only [Option.getD_some]
    rw [hbot]

def msg6 : ChatRequest :=
  { session_id := some 5, title := none, encrypted_message := b64Encode [1, 2, 3],
    encryption_metadata := ⟨none, some "k", none, none⟩, content_hash := 9 }

def urow6 : MessageRow :=
  { id := 6, session_id := 5, sender_type := "user", encrypted_content := [1, 2, 3],
    encryption_metadata := ⟨none, some "k", none, none⟩, content_hash := 9,
    message_data := none, created_at := 6 }

def db16 : DB :=
  { sessions := [{ sessW with updated_at := 6 }], messages := [rowW1, rowW2, urow6],
    nextId := 7 }

def hl6 : List HistoryEntry :=
  [historyEntryOf rowW1, historyEntryOf rowW2, historyEntryOf urow6]

theorem C6_fallback_on_upstream_failure_witness :
    (chat_endpoint msg6 "alice" dbW iv12b LLMOutcome.raised).isOk = true ∧
    decrypt_message (aesgcm_encrypt placeholder_key iv12b (utf8Encode tech_fallback_text))
        (encrypt_message tech_fallback_text ⟨none, some "k", none, none⟩ iv12b).2 =
      .ok tech_fallback_text ∧
    (encrypt_message tech_fallback_text ⟨none, some "k", none, none⟩ iv12b).2.key_id =
      some "k" := by
  have h := C6_fallback_on_upstream_failure msg6 "alice" dbW iv12b .raised 5 sessW
    [1, 2, 3] urow6 db16 hl6 tech_fallback_text
    (encrypt_message tech_fallback_text ⟨none, some "k", none, none⟩ iv12b).2
    (aesgcm_encrypt placeholder_key iv12b (utf8Encode tech_fallback_text))
    rfl (by decide) (by decide) (by decide) (by decide) (Or.inl (by decide))
    (by decide) rfl rfl (by decide) (by decide)
  obtain ⟨_, db2, h1, _, h3, h4⟩ := h
  refine ⟨?_, h3, h4⟩
  rw [h1]
  rfl

def msg2c : ChatRequest :=
  { session_id := some 5, title := none, encrypted_message := b64Encode [5, 6, 7],
    encryption_metadata := ⟨none, some "k", none, none⟩, content_hash := 1 }

set_option maxRecDepth 100000 in
/-- C2: evaluation of a full chat turn at a concrete failing input.  The
turn succeeds and stores two rows, and for both of them the stored
content hash differs from the SHA-256 digest of the stored ciphertext
bytes: the inbound user row keeps the client-supplied hash unverified
(the verification call in `add_message` is commented out), and the bot
row stores the digest of the plaintext reply, not of its ciphertext
(`chat_endpoint` computes `hashlib.sha256(plaintext).hexdigest()`). -/
theorem C2_hash_divergence :
    ((chat_endpoint msg2c "alice" dbW iv12b (.response 500 "x" ["s"])).toOption.map
      (fun r =>
        ((r.2.messages.getD 2 dummyMsgRow).content_hash ==
            sha256_hexdigest (r.2.messages.getD 2 dummyMsgRow).encrypted_content,
         (r.2.messages.getD 3 dummyMsgRow).content_hash ==
            sha256_hexdigest (r.2.messages.getD 3 dummyMsgRow).encrypted_content,
         (r.2.messages.getD 2 dummyMsgRow).sender_type,
         (r.2.messages.getD 3 dummyMsgRow).sender_type,
         r.2.messages.length))) =
      some (false, false, "user", "bot", 4) := by
  decide
